import Mathlib

/-!
Verification of the EMI schedule generation and maintenance core of the
svlf_software vehicle-dealership application (src/app.py, the CSV-backed
variant, with src/vehical_finance_app.py as the SQL-backed twin of the same
logic).  The embedding below translates, function by function:

* `to_int` / the inline `int(float(...))` parsing with default 0,
* `normalize_finance_terms` (app.py, lines 112-121),
* `add_months` (app.py line 161: `orig_date + relativedelta(months=months)`;
  dateutil's `relativedelta(months=n)` on a date is standard Gregorian
  month arithmetic: add `n` to the month index, carry into the year, and
  clamp the day to the last valid day of the target month),
* `derive_emi_status` (app.py, lines 131-142),
* the EMI-generation loop of `sell_vehicle` (app.py, lines 601-613), and
* the EMI-reconciliation block of `edit_buyer` (app.py, lines 718-745):
  reprice unpaid rows on amount change, append rows on tenure growth,
  delete unpaid out-of-range rows on tenure shrink.

Dates are represented structurally as (year, month, day); `dateLt` is the
componentwise lexicographic comparison that Python's `datetime.date`
ordering implements.  CSV rows hold all fields as strings in the source;
numeric fields are embedded at their parsed integer values, and the
`status` field is kept as a string because the code compares it both
exactly (`!= "Paid"` in edit_buyer) and case/space-insensitively
(`.strip().lower() == "paid"` in derive_emi_status).
-/

/-- A calendar date, as Python's `datetime.date`: year, month (1-12),
day (1-31). -/
structure Date where
  year : Nat
  month : Nat
  day : Nat
deriving DecidableEq, Repr

/-- Python date ordering: lexicographic on (year, month, day). -/
def dateLt (a b : Date) : Bool :=
  a.year < b.year ||
    (a.year == b.year &&
      (a.month < b.month || (a.month == b.month && a.day < b.day)))

/-- Gregorian leap-year rule, as used by Python's `calendar`/`datetime`
machinery underlying `dateutil.relativedelta`. -/
def isLeap (y : Nat) : Bool :=
  (y % 4 == 0 && y % 100 != 0) || y % 400 == 0

/-- Number of days in month `m` of year `y` (Gregorian). -/
def daysInMonth (y m : Nat) : Nat :=
  if m == 2 then (if isLeap y then 29 else 28)
  else if m == 4 || m == 6 || m == 9 || m == 11 then 30
  else 31

/-- app.py line 161-162: `add_months(orig_date, months) = orig_date +
relativedelta(months=months)`.  For a nonnegative month count this is
standard Gregorian month rolling: the total month index advances by
`months`, and the day is clamped to the last valid day of the target
month. -/
def add_months (orig_date : Date) (months : Nat) : Date :=
  let t := orig_date.year * 12 + (orig_date.month - 1) + months
  let y := t / 12
  let m := t % 12 + 1
  { year := y, month := m, day := min orig_date.day (daysInMonth y m) }

/-- One row of the `emis` CSV table (app.py) / `emis` SQL table
(vehical_finance_app.py).  Numeric columns are embedded at their parsed
integer values; `status` is the literal stored string ("Paid"/"Unpaid"
as written by the application); `paid_date` is empty (`none`) until an
EMI is marked paid. -/
structure EmiRow where
  id : Nat
  buyer_id : Nat
  emi_no : Nat
  due_date : Date
  amount : Int
  status : String
  paid_date : Option Date
deriving DecidableEq, Repr

/-- app.py lines 95-104: `next_id(rows, key)` scans all rows and returns
`max(ids) + 1` (starting the running maximum at 0).  `max_id` is the scan. -/
def max_id (rows : List EmiRow) : Nat :=
  rows.foldl (fun m e => max m e.id) 0

def next_id (rows : List EmiRow) : Nat :=
  max_id rows + 1

/-- The row appended by one iteration of the EMI-generation loops of
`sell_vehicle` (app.py lines 602-613) and of the grow branch of
`edit_buyer` (app.py lines 724-735): fresh id, the given buyer, sequence
number `i`, due date `sale_date + i` months, the current installment
amount, status "Unpaid", no paid date. -/
def new_emi_row (rows : List EmiRow) (buyer_id : Nat) (sd : Date)
    (amount : Int) (i : Nat) : EmiRow :=
  { id := next_id rows
    buyer_id := buyer_id
    emi_no := i
    due_date := add_months sd i
    amount := amount
    status := "Unpaid"
    paid_date := none }

/-- One iteration of those loops: `emis_rows.append({...})`. -/
def append_emi (buyer_id : Nat) (sd : Date) (amount : Int)
    (rows : List EmiRow) (i : Nat) : List EmiRow :=
  rows ++ [new_emi_row rows buyer_id sd amount i]

/-- app.py lines 601-613 (sell_vehicle): `for i in range(1, tenure + 1):
emis_rows.append({... 'emi_no': i, 'due_date': add_months(sd, i),
'amount': emi_amount, 'status': 'Unpaid', 'paid_date': ''})`, starting
from the already-loaded `emis_rows` (rows of all buyers). -/
def sell_vehicle_emis (buyer_id : Nat) (sd : Date) (emi_amount : Int)
    (tenure : Nat) (emis_rows : List EmiRow) : List EmiRow :=
  (List.range' 1 tenure).foldl (append_emi buyer_id sd emi_amount) emis_rows

/-- The body of the reprice loop of `edit_buyer` (app.py lines 719-722):
rows of this buyer whose status is not exactly "Paid" get the new
amount; all other rows are untouched. -/
def reprice_row (buyer_id : Nat) (new_amount : Int) (emi : EmiRow) : EmiRow :=
  if emi.buyer_id == buyer_id && emi.status != "Paid" then
    { emi with amount := new_amount }
  else emi

/-- app.py lines 718-742 (edit_buyer, the EMI-adjustment block run when a
buyer already exists).  Reprice when the installment amount changed, then
either append rows (tenure grew) or delete unpaid out-of-range rows of
this buyer (tenure shrank); the grow and shrink branches are an
`if`/`elif` pair in the source. -/
def edit_buyer_emis (buyer_id : Nat) (old_emi_amount new_emi_amount : Int)
    (old_tenure new_tenure : Nat) (sale_date : Date)
    (emis_rows : List EmiRow) : List EmiRow :=
  let rows1 :=
    if new_emi_amount != old_emi_amount then
      emis_rows.map (reprice_row buyer_id new_emi_amount)
    else emis_rows
  if old_tenure < new_tenure then
    (List.range' (old_tenure + 1) (new_tenure - old_tenure)).foldl
      (append_emi buyer_id sale_date new_emi_amount) rows1
  else if new_tenure < old_tenure then
    rows1.filter (fun emi =>
      !(emi.buyer_id == buyer_id && new_tenure < emi.emi_no &&
        emi.status != "Paid"))
  else rows1

/-- app.py lines 112-121: clamp the three values to be nonnegative, and
force the no-finance (cash sale) triple to all zeros. -/
def normalize_finance_terms (finance_amount emi_amount tenure : Int) :
    Int × Int × Int :=
  let fa := max finance_amount 0
  let ea := max emi_amount 0
  let t := max tenure 0
  if fa == 0 then (0, 0, 0) else (fa, ea, t)

/-- A raw form value as seen by `to_int` / the inline
`int(float(f.get(...) or 0))` parsers: absent (`None`, a `TypeError`),
present but non-numeric (a `ValueError`), or a parsed integer value. -/
inductive RawInput where
  | missing : RawInput
  | unparsable : RawInput
  | num : Int → RawInput
deriving DecidableEq, Repr

/-- app.py lines 106-110: `to_int(value, default=0)` returns the parsed
integer, or the default 0 when parsing raises. -/
def to_int : RawInput → Int
  | .num n => n
  | _ => 0

/-- The full sanitising pipeline a sale or buyer-edit request runs on its
three finance fields: parse each permissively (default 0), then
`normalize_finance_terms` (app.py lines 566-579). -/
def parse_and_normalize (fa ea t : RawInput) : Int × Int × Int :=
  normalize_finance_terms (to_int fa) (to_int ea) (to_int t)

/-- Python `str.strip()`: drop leading and trailing whitespace, written
over the underlying character list. -/
def str_strip (s : String) : String :=
  ⟨((s.data.dropWhile (fun c => c.isWhitespace)).reverse.dropWhile
      (fun c => c.isWhitespace)).reverse⟩

/-- Python `str.lower()` for the ASCII data this application stores,
written over the underlying character list. -/
def str_lower (s : String) : String :=
  ⟨s.data.map Char.toLower⟩

/-- app.py line 133: `(emi_row.get("status") or "").strip().lower() ==
"paid"`, the paid test of `derive_emi_status`. -/
def is_paid_status (s : String) : Bool :=
  str_lower (str_strip s) == "paid"

/-- app.py lines 131-142: `derive_emi_status(emi_row, today)`.  Its two
inputs from the row are the stored status string and the result of
`parse_iso_date` on the stored due-date string (`none` when that string
is absent or unparsable). -/
def derive_emi_status (status : String) (due_date : Option Date)
    (today : Date) : String :=
  if is_paid_status status then "Paid"
  else
    match due_date with
    | none => "Unpaid"
    | some d =>
      if dateLt d today then "Overdue"
      else if dateLt today d then "Upcoming"
      else "Due Today"

/-!
## Closed form of the append loops

Both schedule-creating loops append one freshly-numbered row per sequence
number, recomputing `next_id` against the list grown so far.  `gen_rows
base s n` is the block of rows such a loop adds when the running maximum
id is `base` and the sequence numbers run `s, s+1, ..., s+n-1`.
-/

def gen_rows (buyer_id : Nat) (sd : Date) (amount : Int) :
    Nat → Nat → Nat → List EmiRow
  | _, _, 0 => []
  | base, s, n+1 =>
    { id := base + 1
      buyer_id := buyer_id
      emi_no := s
      due_date := add_months sd s
      amount := amount
      status := "Unpaid"
      paid_date := none } :: gen_rows buyer_id sd amount (base + 1) (s + 1) n

theorem max_id_append_one (rows : List EmiRow) (e : EmiRow) :
    max_id (rows ++ [e]) = max (max_id rows) e.id := by
  simp [max_id, List.foldl_append]

theorem max_id_append_emi (b : Nat) (sd : Date) (a : Int)
    (rows : List EmiRow) (i : Nat) :
    max_id (append_emi b sd a rows i) = max_id rows + 1 := by
  simp [append_emi, max_id_append_one, new_emi_row, next_id]

theorem foldl_append_emi (b : Nat) (sd : Date) (a : Int) :
    ∀ (n s : Nat) (rows : List EmiRow),
      (List.range' s n).foldl (append_emi b sd a) rows
        = rows ++ gen_rows b sd a (max_id rows) s n
  | 0, s, rows => by simp [gen_rows]
  | n + 1, s, rows => by
    rw [List.range'_succ, List.foldl_cons,
      foldl_append_emi b sd a n (s + 1) (append_emi b sd a rows s),
      max_id_append_emi]
    simp [append_emi, new_emi_row, next_id, gen_rows]

theorem gen_rows_length (b : Nat) (sd : Date) (a : Int) :
    ∀ (n base s : Nat), (gen_rows b sd a base s n).length = n
  | 0, _, _ => rfl
  | n + 1, base, s => by
    simp [gen_rows, gen_rows_length b sd a n (base + 1) (s + 1)]

theorem gen_rows_map_emi_no (b : Nat) (sd : Date) (a : Int) :
    ∀ (n base s : Nat),
      (gen_rows b sd a base s n).map (fun e => e.emi_no) = List.range' s n
  | 0, _, _ => rfl
  | n + 1, base, s => by
    rw [List.range'_succ]
    simp [gen_rows, gen_rows_map_emi_no b sd a n (base + 1) (s + 1)]

theorem gen_rows_mem (b : Nat) (sd : Date) (a : Int) :
    ∀ (n base s : Nat), ∀ e ∈ gen_rows b sd a base s n,
      e.buyer_id = b ∧ e.due_date = add_months sd e.emi_no ∧ e.amount = a ∧
        e.status = "Unpaid" ∧ e.paid_date = none ∧
        s ≤ e.emi_no ∧ e.emi_no < s + n
  | 0, _, _ => by simp [gen_rows]
  | n + 1, base, s => by
    intro e he
    rcases List.mem_cons.mp he with h | h
    · subst h
      refine ⟨rfl, rfl, rfl, rfl, rfl, Nat.le_refl s, ?_⟩
      show s < s + (n + 1)
      omega
    · have ih := gen_rows_mem b sd a n (base + 1) (s + 1) e h
      exact ⟨ih.1, ih.2.1, ih.2.2.1, ih.2.2.2.1, ih.2.2.2.2.1,
        by omega, by omega⟩

theorem add_months_strict_mono (d : Date) {n m : Nat} (h : n < m) :
    dateLt (add_months d n) (add_months d m) = true := by
  simp only [add_months, dateLt, Bool.or_eq_true, Bool.and_eq_true,
    decide_eq_true_eq, beq_iff_eq]
  omega

theorem gen_rows_pairwise (b : Nat) (sd : Date) (a : Int) :
    ∀ (n base s : Nat),
      (gen_rows b sd a base s n).Pairwise
        (fun e1 e2 => dateLt e1.due_date e2.due_date = true)
  | 0, _, _ => List.Pairwise.nil
  | n + 1, base, s => by
    refine List.Pairwise.cons ?_ (gen_rows_pairwise b sd a n (base + 1) (s + 1))
    intro e he
    have hm := gen_rows_mem b sd a n (base + 1) (s + 1) e he
    show dateLt (add_months sd s) e.due_date = true
    rw [hm.2.1]
    exact add_months_strict_mono sd (by omega)

theorem dateLt_irrefl (a : Date) : dateLt a a = false := by
  simp [dateLt]

theorem dateLt_asymm {a b : Date} (h : dateLt a b = true) :
    dateLt b a = false := by
  cases a
  cases b
  simp only [dateLt, Bool.or_eq_true, Bool.and_eq_true, decide_eq_true_eq,
    beq_iff_eq] at h
  simp only [dateLt, Bool.or_eq_false_iff, Bool.and_eq_false_iff,
    decide_eq_false_iff_not, not_lt, beq_eq_false_iff_ne, ne_eq]
  omega

theorem reprice_row_fields (b : Nat) (a : Int) (e : EmiRow) :
    (reprice_row b a e).id = e.id ∧
      (reprice_row b a e).buyer_id = e.buyer_id ∧
      (reprice_row b a e).emi_no = e.emi_no ∧
      (reprice_row b a e).due_date = e.due_date ∧
      (reprice_row b a e).status = e.status ∧
      (reprice_row b a e).paid_date = e.paid_date := by
  simp only [reprice_row]
  split <;> simp

theorem reprice_row_paid (b : Nat) (a : Int) (e : EmiRow)
    (h : e.status = "Paid") : reprice_row b a e = e := by
  simp [reprice_row, h]

/-!
## Claim theorems
-/

/-- C1: the sell_vehicle EMI-generation loop (`generateSchedule`), run for
a tenure of `n` months with installment amount `a` and sale date `sd`,
leaves the pre-existing rows untouched and appends exactly `n`
installments whose sequence numbers are exactly `1..n` in order (no gaps,
no duplicates), where the installment with sequence number `i` is due `i`
calendar months after `sd`, has amount `a`, status "Unpaid" (paid =
false) and no paid date, and the due dates are strictly increasing in
sequence number. -/
theorem sell_vehicle_emis_spec (b : Nat) (sd : Date) (a : Int) (n : Nat)
    (rows : List EmiRow) :
    (sell_vehicle_emis b sd a n rows).take rows.length = rows ∧
    ((sell_vehicle_emis b sd a n rows).drop rows.length).length = n ∧
    ((sell_vehicle_emis b sd a n rows).drop rows.length).map
        (fun e => e.emi_no) = List.range' 1 n ∧
    (∀ e ∈ (sell_vehicle_emis b sd a n rows).drop rows.length,
      e.buyer_id = b ∧ e.due_date = add_months sd e.emi_no ∧ e.amount = a ∧
        e.status = "Unpaid" ∧ e.paid_date = none) ∧
    ((sell_vehicle_emis b sd a n rows).drop rows.length).Pairwise
      (fun e1 e2 => dateLt e1.due_date e2.due_date = true) := by
  have key : sell_vehicle_emis b sd a n rows
      = rows ++ gen_rows b sd a (max_id rows) 1 n :=
    foldl_append_emi b sd a n 1 rows
  rw [key, List.take_left, List.drop_left]
  refine ⟨rfl, gen_rows_length b sd a n (max_id rows) 1,
    gen_rows_map_emi_no b sd a n (max_id rows) 1, ?_,
    gen_rows_pairwise b sd a n (max_id rows) 1⟩
  intro e he
  have h := gen_rows_mem b sd a n (max_id rows) 1 e he
  exact ⟨h.1, h.2.1, h.2.2.1, h.2.2.2.1, h.2.2.2.2.1⟩

/-- C6: `add_months` follows standard Gregorian month rolling: the total
month index advances by exactly `k`, the resulting month is a valid one,
and the day is the same day-of-month clamped to the last valid day of the
target month; in particular the generated schedule for sale date
2024-01-31, tenure 3, amount 1000 is [(1, 2024-02-29, 1000),
(2, 2024-03-31, 1000), (3, 2024-04-30, 1000)]. -/
theorem add_months_month_rolling (d : Date) (k : Nat) (hm : 1 ≤ d.month) :
    (add_months d k).year * 12 + (add_months d k).month
        = d.year * 12 + d.month + k ∧
    1 ≤ (add_months d k).month ∧ (add_months d k).month ≤ 12 ∧
    (add_months d k).day
        = min d.day (daysInMonth (add_months d k).year (add_months d k).month) ∧
    (sell_vehicle_emis 1 ⟨2024, 1, 31⟩ 1000 3 []).map
        (fun e => (e.emi_no, e.due_date, e.amount))
      = [(1, ⟨2024, 2, 29⟩, 1000), (2, ⟨2024, 3, 31⟩, 1000),
         (3, ⟨2024, 4, 30⟩, 1000)] := by
  refine ⟨?_, ?_, ?_, rfl, by decide⟩
  · simp only [add_months]
    omega
  · simp only [add_months]
    omega
  · simp only [add_months]
    omega

/-- Witness for C6 at the concrete input of the claim: adding one month
to 2024-01-31 advances the month index by one. -/
theorem add_months_month_rolling_witness :
    (add_months ⟨2024, 1, 31⟩ 1).year * 12 + (add_months ⟨2024, 1, 31⟩ 1).month
      = 2024 * 12 + 1 + 1 :=
  (add_months_month_rolling ⟨2024, 1, 31⟩ 1 (by decide)).1

/-- C7: reconciling with unchanged terms (same installment amount, same
tenure) is a no-op: the EMI table is returned exactly as it was. -/
theorem edit_buyer_emis_noop (b : Nat) (a : Int) (t : Nat) (sd : Date)
    (rows : List EmiRow) : edit_buyer_emis b a a t t sd rows = rows := by
  simp [edit_buyer_emis]

/-- C8: `derive_emi_status` returns one of the five labels, decided by
precedence: "Paid" whenever the stored status tests as paid (regardless
of the due date); otherwise "Unpaid" when the due date is absent or
unparsable; otherwise "Overdue" when the due date is before today,
"Due Today" when it is today, and "Upcoming" when it is after today. -/
theorem derive_emi_status_spec (status : String) (due_date : Option Date)
    (today : Date) :
    derive_emi_status status due_date today
        ∈ ["Paid", "Unpaid", "Overdue", "Due Today", "Upcoming"] ∧
    (is_paid_status status = true →
        derive_emi_status status due_date today = "Paid") ∧
    (is_paid_status status = false → due_date = none →
        derive_emi_status status due_date today = "Unpaid") ∧
    (∀ d, is_paid_status status = false → due_date = some d →
        (dateLt d today = true →
            derive_emi_status status due_date today = "Overdue") ∧
        (d = today → derive_emi_status status due_date today = "Due Today") ∧
        (dateLt today d = true →
            derive_emi_status status due_date today = "Upcoming")) := by
  refine ⟨?_, ?_, ?_, ?_⟩
  · simp only [derive_emi_status]
    split
    · simp
    · match due_date with
      | none => simp
      | some d =>
        split
        · simp
        · split <;> simp
  · intro h
    simp [derive_emi_status, h]
  · intro h hd
    simp [derive_emi_status, h, hd]
  · intro d h hd
    refine ⟨?_, ?_, ?_⟩
    · intro hlt
      simp [derive_emi_status, h, hd, hlt]
    · intro he
      subst he
      simp [derive_emi_status, h, hd, dateLt_irrefl]
    · intro hlt
      have h2 := dateLt_asymm hlt
      simp [derive_emi_status, h, hd, hlt, h2]

/-- Witness for C8: each of the five labels is realised at a concrete
installment and date, with the hypotheses of the corresponding branch
discharged by evaluation. -/
theorem derive_emi_status_spec_witness :
    derive_emi_status "Paid" (some ⟨2023, 1, 1⟩) ⟨2024, 1, 1⟩ = "Paid" ∧
    derive_emi_status "Unpaid" none ⟨2024, 1, 1⟩ = "Unpaid" ∧
    derive_emi_status "Unpaid" (some ⟨2023, 12, 31⟩) ⟨2024, 1, 1⟩
        = "Overdue" ∧
    derive_emi_status "Unpaid" (some ⟨2024, 1, 1⟩) ⟨2024, 1, 1⟩
        = "Due Today" ∧
    derive_emi_status "Unpaid" (some ⟨2024, 1, 2⟩) ⟨2024, 1, 1⟩
        = "Upcoming" :=
  ⟨(derive_emi_status_spec "Paid" (some ⟨2023, 1, 1⟩) ⟨2024, 1, 1⟩).2.1
      (by decide),
   (derive_emi_status_spec "Unpaid" none ⟨2024, 1, 1⟩).2.2.1 (by decide) rfl,
   ((derive_emi_status_spec "Unpaid" (some ⟨2023, 12, 31⟩)
        ⟨2024, 1, 1⟩).2.2.2 ⟨2023, 12, 31⟩ (by decide) rfl).1 (by decide),
   ((derive_emi_status_spec "Unpaid" (some ⟨2024, 1, 1⟩)
        ⟨2024, 1, 1⟩).2.2.2 ⟨2024, 1, 1⟩ (by decide) rfl).2.1 rfl,
   ((derive_emi_status_spec "Unpaid" (some ⟨2024, 1, 2⟩)
        ⟨2024, 1, 1⟩).2.2.2 ⟨2024, 1, 2⟩ (by decide) rfl).2.2 (by decide)⟩

/-- C5: if the clamped finance amount is zero, `normalize_finance_terms`
returns (0, 0, 0) regardless of the supplied installment amount and
tenure, and the schedule-generation loop run with the resulting tenure 0
creates no installments; otherwise the three clamped values pass through
unchanged. -/
theorem normalize_cash_sale (fa ea t : Int) :
    (max fa 0 = 0 → normalize_finance_terms fa ea t = (0, 0, 0)) ∧
    (max fa 0 ≠ 0 →
        normalize_finance_terms fa ea t = (max fa 0, max ea 0, max t 0)) ∧
    (∀ (b : Nat) (sd : Date) (a : Int) (rows : List EmiRow),
        sell_vehicle_emis b sd a 0 rows = rows) := by
  refine ⟨?_, ?_, ?_⟩
  · intro h
    simp [normalize_finance_terms, h]
  · intro h
    simp [normalize_finance_terms, h]
  · intro b sd a rows
    rfl

/-- Witness for C5: a cash sale (finance amount 0) with a nonzero
supplied installment amount and tenure normalizes to all zeros, and a
tenure-0 schedule generation adds nothing. -/
theorem normalize_cash_sale_witness :
    normalize_finance_terms 0 900 12 = (0, 0, 0) ∧
    sell_vehicle_emis 3 ⟨2025, 2, 1⟩ 0 0 [] = [] :=
  ⟨(normalize_cash_sale 0 900 12).1 (by decide),
   (normalize_cash_sale 0 900 12).2.2 3 ⟨2025, 2, 1⟩ 0 []⟩

/-- C10: the parse-and-normalize pipeline is total (no input raises), its
three outputs are nonnegative, and any coordinate whose raw value parsed
to a nonpositive integer (in particular any negative, missing or
unparsable value, which `to_int` sends to 0) comes out as 0. -/
theorem parse_and_normalize_total (fa ea t : RawInput) :
    0 ≤ (parse_and_normalize fa ea t).1 ∧
    0 ≤ (parse_and_normalize fa ea t).2.1 ∧
    0 ≤ (parse_and_normalize fa ea t).2.2 ∧
    (to_int fa ≤ 0 → (parse_and_normalize fa ea t).1 = 0) ∧
    (to_int ea ≤ 0 → (parse_and_normalize fa ea t).2.1 = 0) ∧
    (to_int t ≤ 0 → (parse_and_normalize fa ea t).2.2 = 0) := by
  by_cases h : max (to_int fa) 0 = 0 <;>
    simp [parse_and_normalize, normalize_finance_terms, h] <;>
    omega

/-- Witness for C10: a negative installment amount and a missing tenure
both come out as 0. -/
theorem parse_and_normalize_total_witness :
    (parse_and_normalize (.num 5000) (.num (-2)) .missing).2.1 = 0 ∧
    (parse_and_normalize (.num 5000) (.num (-2)) .missing).2.2 = 0 :=
  ⟨(parse_and_normalize_total (.num 5000) (.num (-2)) .missing).2.2.2.2.1
      (by decide),
   (parse_and_normalize_total (.num 5000) (.num (-2)) .missing).2.2.2.2.2
      (by decide)⟩

/-- The keep-condition of the shrink branch, as a proposition: a row
survives the delete unless it belongs to this buyer, lies beyond the new
tenure and is not paid. -/
theorem shrink_keep_iff (b newT : Nat) (e : EmiRow) :
    (!(e.buyer_id == b && newT < e.emi_no && e.status != "Paid")) = true
      ↔ ¬(e.buyer_id = b ∧ newT < e.emi_no ∧ e.status ≠ "Paid") := by
  simp only [Bool.not_eq_true', Bool.and_eq_false_iff, beq_eq_false_iff_ne,
    bne_eq_false_iff_eq, decide_eq_false_iff_not, not_lt, ne_eq, not_and,
    not_not]
  constructor
  · intro h hb hlt
    rcases h with (h | h) | h
    · exact absurd hb h
    · omega
    · exact h
  · intro h
    by_cases hb : e.buyer_id = b
    · by_cases hlt : newT < e.emi_no
      · exact Or.inr (h hb hlt)
      · exact Or.inl (Or.inr (by omega))
    · exact Or.inl (Or.inl hb)

theorem reprice_row_amount (b : Nat) (a : Int) (e : EmiRow)
    (hb : (reprice_row b a e).buyer_id = b)
    (hs : (reprice_row b a e).status ≠ "Paid") :
    (reprice_row b a e).amount = a := by
  obtain ⟨_, h2, _, _, h5, _⟩ := reprice_row_fields b a e
  rw [h2] at hb
  rw [h5] at hs
  have hc : (e.buyer_id == b && e.status != "Paid") = true := by
    simp [hb, bne_iff_ne, hs]
  simp [reprice_row, hc]

/-- C2: a reconcile that shrinks the tenure deletes exactly the unpaid
installments of this buyer with sequence number beyond the new tenure:
every paid row survives verbatim (even beyond the new tenure), no
surviving row of this buyer beyond the new tenure is unpaid, every row
not matching the delete condition survives (modulo the reprice of step
1), and nothing else is inserted. -/
theorem edit_buyer_emis_shrink (b : Nat) (oldA newA : Int) (oldT newT : Nat)
    (sd : Date) (rows : List EmiRow) (hT : newT < oldT) :
    (∀ e ∈ rows, e.status = "Paid" →
        e ∈ edit_buyer_emis b oldA newA oldT newT sd rows) ∧
    (∀ e ∈ edit_buyer_emis b oldA newA oldT newT sd rows,
        ¬(e.buyer_id = b ∧ newT < e.emi_no ∧ e.status ≠ "Paid")) ∧
    (∀ e ∈ rows, ¬(e.buyer_id = b ∧ newT < e.emi_no ∧ e.status ≠ "Paid") →
        (if newA != oldA then reprice_row b newA e else e)
          ∈ edit_buyer_emis b oldA newA oldT newT sd rows) ∧
    (∀ e ∈ edit_buyer_emis b oldA newA oldT newT sd rows,
        ∃ e0 ∈ rows, e = (if newA != oldA then reprice_row b newA e0 else e0)) := by
  have hg : ¬ oldT < newT := by omega
  have hres : edit_buyer_emis b oldA newA oldT newT sd rows
      = (if newA != oldA then rows.map (reprice_row b newA) else rows).filter
          (fun emi =>
            !(emi.buyer_id == b && newT < emi.emi_no &&
              emi.status != "Paid")) := by
    simp only [edit_buyer_emis, if_neg hg, if_pos hT]
  have hmem1 : ∀ e ∈ rows, (if newA != oldA then reprice_row b newA e else e)
      ∈ (if newA != oldA then rows.map (reprice_row b newA) else rows) := by
    intro e he
    by_cases hA : (newA != oldA) = true
    · simp only [if_pos hA]
      exact List.mem_map_of_mem _ he
    · simp only [if_neg hA]
      exact he
  have hmem2 : ∀ x ∈ (if newA != oldA then rows.map (reprice_row b newA)
      else rows),
      ∃ e0 ∈ rows, x = (if newA != oldA then reprice_row b newA e0 else e0) := by
    intro x hx
    by_cases hA : (newA != oldA) = true
    · rw [if_pos hA] at hx
      obtain ⟨e0, he0, hx⟩ := List.mem_map.mp hx
      exact ⟨e0, he0, by rw [if_pos hA, hx]⟩
    · rw [if_neg hA] at hx
      exact ⟨x, hx, by rw [if_neg hA]⟩
  have hfields : ∀ e : EmiRow,
      (if newA != oldA then reprice_row b newA e else e).buyer_id = e.buyer_id ∧
      (if newA != oldA then reprice_row b newA e else e).emi_no = e.emi_no ∧
      (if newA != oldA then reprice_row b newA e else e).status = e.status := by
    intro e
    by_cases hA : (newA != oldA) = true
    · simp only [if_pos hA]
      obtain ⟨_, h2, h3, _, h5, _⟩ := reprice_row_fields b newA e
      exact ⟨h2, h3, h5⟩
    · have heq : newA = oldA := by
        simpa [bne_iff_ne] using hA
      subst heq
      simp
  refine ⟨?_, ?_, ?_, ?_⟩
  · intro e he hp
    rw [hres]
    refine List.mem_filter.mpr ⟨?_, ?_⟩
    · have h1 := hmem1 e he
      have hfe : (if newA != oldA then reprice_row b newA e else e) = e := by
        by_cases hA : (newA != oldA) = true
        · simp only [if_pos hA]
          exact reprice_row_paid b newA e hp
        · simp only [if_neg hA]
      rw [hfe] at h1
      exact h1
    · simp [hp]
  · intro e he
    rw [hres] at he
    exact (shrink_keep_iff b newT e).mp (List.mem_filter.mp he).2
  · intro e he hn
    rw [hres]
    refine List.mem_filter.mpr ⟨hmem1 e he, ?_⟩
    obtain ⟨hb, hn2, hs⟩ := hfields e
    have hk := (shrink_keep_iff b newT e).mpr hn
    show (!((if newA != oldA then reprice_row b newA e else e).buyer_id == b &&
        newT < (if newA != oldA then reprice_row b newA e else e).emi_no &&
        (if newA != oldA then reprice_row b newA e else e).status != "Paid"))
        = true
    rw [hb, hn2, hs]
    exact hk
  · intro e he
    rw [hres] at he
    exact hmem2 e (List.mem_filter.mp he).1

/-- The concrete shrink scenario of the claim: a six-installment schedule
for buyer 7 (sale 2024-01-15, amount 500) whose first two installments
are already paid. -/
def shrinkRows : List EmiRow :=
  (sell_vehicle_emis 7 ⟨2024, 1, 15⟩ 500 6 []).map
    (fun e => if e.emi_no ≤ 2 then
        { e with status := "Paid", paid_date := some ⟨2024, 8, 1⟩ }
      else e)

/-- Witness for C2: shrinking buyer 7 from tenure 6 to 3 (with a
simultaneous reprice 500 to 450) keeps the already-paid installment 2
verbatim. -/
theorem edit_buyer_emis_shrink_witness :
    (⟨2, 7, 2, ⟨2024, 3, 15⟩, 500, "Paid", some ⟨2024, 8, 1⟩⟩ : EmiRow)
      ∈ edit_buyer_emis 7 500 450 6 3 ⟨2024, 1, 15⟩ shrinkRows :=
  (edit_buyer_emis_shrink 7 500 450 6 3 ⟨2024, 1, 15⟩ shrinkRows
      (by decide)).1
    ⟨2, 7, 2, ⟨2024, 3, 15⟩, 500, "Paid", some ⟨2024, 8, 1⟩⟩ (by decide) rfl

/-- C3: a reconcile with a changed installment amount leaves every
installment of this buyer that is not paid with the new amount (whether
repriced in place or freshly appended by a simultaneous tenure change),
and every row already marked paid survives the call verbatim, its
recorded amount untouched. -/
theorem edit_buyer_emis_reprice (b : Nat) (oldA newA : Int) (oldT newT : Nat)
    (sd : Date) (rows : List EmiRow) (hA : newA ≠ oldA) :
    (∀ e ∈ edit_buyer_emis b oldA newA oldT newT sd rows,
        e.buyer_id = b → e.status ≠ "Paid" → e.amount = newA) ∧
    (∀ e ∈ rows, e.status = "Paid" →
        e ∈ edit_buyer_emis b oldA newA oldT newT sd rows) := by
  have hA' : (newA != oldA) = true := bne_iff_ne.mpr hA
  have hmapP : ∀ x ∈ rows.map (reprice_row b newA),
      x.buyer_id = b → x.status ≠ "Paid" → x.amount = newA := by
    intro x hx hb hs
    obtain ⟨e0, he0, rfl⟩ := List.mem_map.mp hx
    exact reprice_row_amount b newA e0 hb hs
  have hmapPaid : ∀ e ∈ rows, e.status = "Paid" →
      e ∈ rows.map (reprice_row b newA) := by
    intro e he hp
    exact List.mem_map.mpr ⟨e, he, reprice_row_paid b newA e hp⟩
  rcases Nat.lt_trichotomy oldT newT with hT | hT | hT
  · have hres : edit_buyer_emis b oldA newA oldT newT sd rows
        = rows.map (reprice_row b newA)
          ++ gen_rows b sd newA (max_id (rows.map (reprice_row b newA)))
              (oldT + 1) (newT - oldT) := by
      simp only [edit_buyer_emis, if_pos hA', if_pos hT]
      exact foldl_append_emi b sd newA (newT - oldT) (oldT + 1) _
    constructor
    · intro e he hb hs
      rw [hres] at he
      rcases List.mem_append.mp he with h | h
      · exact hmapP e h hb hs
      · exact (gen_rows_mem b sd newA _ _ _ e h).2.2.1
    · intro e he hp
      rw [hres]
      exact List.mem_append_left _ (hmapPaid e he hp)
  · have hres : edit_buyer_emis b oldA newA oldT newT sd rows
        = rows.map (reprice_row b newA) := by
      subst hT
      simp only [edit_buyer_emis, if_pos hA', lt_self_iff_false, if_false]
    constructor
    · intro e he hb hs
      rw [hres] at he
      exact hmapP e he hb hs
    · intro e he hp
      rw [hres]
      exact hmapPaid e he hp
  · have hg : ¬ oldT < newT := by omega
    have hres : edit_buyer_emis b oldA newA oldT newT sd rows
        = (rows.map (reprice_row b newA)).filter
            (fun emi =>
              !(emi.buyer_id == b && newT < emi.emi_no &&
                emi.status != "Paid")) := by
      simp only [edit_buyer_emis, if_pos hA', if_neg hg, if_pos hT]
    constructor
    · intro e he hb hs
      rw [hres] at he
      exact hmapP e (List.mem_filter.mp he).1 hb hs
    · intro e he hp
      rw [hres]
      refine List.mem_filter.mpr ⟨hmapPaid e he hp, ?_⟩
      simp [hp]

/-- Witness for C3: repricing buyer 7 from 500 to 450 with unchanged
tenure keeps the already-paid installment 2 verbatim, with its recorded
amount 500. -/
theorem edit_buyer_emis_reprice_witness :
    (⟨2, 7, 2, ⟨2024, 3, 15⟩, 500, "Paid", some ⟨2024, 8, 1⟩⟩ : EmiRow)
      ∈ edit_buyer_emis 7 500 450 6 6 ⟨2024, 1, 15⟩ shrinkRows :=
  (edit_buyer_emis_reprice 7 500 450 6 6 ⟨2024, 1, 15⟩ shrinkRows
      (by decide)).2
    ⟨2, 7, 2, ⟨2024, 3, 15⟩, 500, "Paid", some ⟨2024, 8, 1⟩⟩ (by decide) rfl

/-- The three-installment schedule of the concrete grow scenario of C4:
buyer 1, sale date 2024-01-15, amount 1000, tenure 3. -/
def exampleRows3 : List EmiRow :=
  sell_vehicle_emis 1 ⟨2024, 1, 15⟩ 1000 3 []

/-- C4: a reconcile that grows the tenure appends exactly the
installments with sequence numbers oldTenure+1 .. newTenure, each with
the new amount, status "Unpaid", no paid date, and due date equal to the
original sale date advanced by its sequence number in months; in
particular growing tenure 3 to 5 with sale date 2024-01-15 appends
installments 4 and 5 due 2024-05-15 and 2024-06-15. -/
theorem edit_buyer_emis_grow (b : Nat) (oldA newA : Int) (oldT newT : Nat)
    (sd : Date) (rows : List EmiRow) (hT : oldT < newT) :
    ((edit_buyer_emis b oldA newA oldT newT sd rows).drop rows.length).length
        = newT - oldT ∧
    ((edit_buyer_emis b oldA newA oldT newT sd rows).drop rows.length).map
        (fun e => e.emi_no) = List.range' (oldT + 1) (newT - oldT) ∧
    (∀ e ∈ (edit_buyer_emis b oldA newA oldT newT sd rows).drop rows.length,
        e.buyer_id = b ∧ e.due_date = add_months sd e.emi_no ∧
          e.amount = newA ∧ e.status = "Unpaid" ∧ e.paid_date = none) ∧
    ((edit_buyer_emis 1 1000 1000 3 5 ⟨2024, 1, 15⟩ exampleRows3).drop 3).map
        (fun e => (e.emi_no, e.due_date))
      = [(4, ⟨2024, 5, 15⟩), (5, ⟨2024, 6, 15⟩)] := by
  have hres : edit_buyer_emis b oldA newA oldT newT sd rows
      = (if (newA != oldA) = true then rows.map (reprice_row b newA)
          else rows)
        ++ gen_rows b sd newA
            (max_id (if (newA != oldA) = true
              then rows.map (reprice_row b newA) else rows))
            (oldT + 1) (newT - oldT) := by
    simp only [edit_buyer_emis, if_pos hT]
    exact foldl_append_emi b sd newA (newT - oldT) (oldT + 1) _
  have hlen : (if (newA != oldA) = true then rows.map (reprice_row b newA)
      else rows).length = rows.length := by
    by_cases hA : (newA != oldA) = true
    · rw [if_pos hA]
      exact List.length_map rows _
    · rw [if_neg hA]
  rw [hres, ← hlen, List.drop_left]
  refine ⟨gen_rows_length b sd newA (newT - oldT) _ (oldT + 1),
    gen_rows_map_emi_no b sd newA (newT - oldT) _ (oldT + 1), ?_, by decide⟩
  intro e he
  have h := gen_rows_mem b sd newA (newT - oldT) _ (oldT + 1) e he
  exact ⟨h.1, h.2.1, h.2.2.1, h.2.2.2.1, h.2.2.2.2.1⟩

/-- Witness for C4: the concrete grow scenario of the claim, extracted
from the theorem with its tenure hypothesis discharged by evaluation. -/
theorem edit_buyer_emis_grow_witness :
    ((edit_buyer_emis 1 1000 1000 3 5 ⟨2024, 1, 15⟩ exampleRows3).drop 3).map
        (fun e => (e.emi_no, e.due_date))
      = [(4, ⟨2024, 5, 15⟩), (5, ⟨2024, 6, 15⟩)] :=
  (edit_buyer_emis_grow 1 1000 1000 3 5 ⟨2024, 1, 15⟩ exampleRows3
      (by decide)).2.2.2

/-- A five-installment schedule for buyer 1 (sale 2024-01-15, amount
1000) whose last installment (sequence number 5) has been marked paid,
as `toggle_emi` records a payment. -/
def rowsPaidTail : List EmiRow :=
  (sell_vehicle_emis 1 ⟨2024, 1, 15⟩ 1000 5 []).map
    (fun e => if e.emi_no == 5 then
        { e with status := "Paid", paid_date := some ⟨2024, 7, 1⟩ }
      else e)

/-- Counterexample to C9: starting from a well-formed schedule with
sequence numbers exactly 1..5 in which installment 5 is paid, a tenure
shrink to 3 (which retains the paid installment 5) followed by a tenure
grow back to 5 re-appends sequence numbers 4 and 5, leaving two
installments of buyer 1 with sequence number 5. -/
theorem edit_buyer_emis_duplicate_counterexample :
    ((rowsPaidTail.filter (fun e => e.buyer_id == 1)).map (fun e => e.emi_no)
        = [1, 2, 3, 4, 5]) ∧
    (((edit_buyer_emis 1 1000 1000 3 5 ⟨2024, 1, 15⟩
          (edit_buyer_emis 1 1000 1000 5 3 ⟨2024, 1, 15⟩ rowsPaidTail)).filter
        (fun e => e.buyer_id == 1 && e.emi_no == 5)).length = 2) :=
  ⟨by decide, by decide⟩

/-- C9 (amended): a single reconcile call preserves per-buyer
sequence-number uniqueness whenever every existing installment of the
buyer has a sequence number within the old tenure — which fails after a
shrink that retained a paid tail installment, the case the
counterexample exploits. -/
theorem edit_buyer_emis_nodup (b : Nat) (oldA newA : Int) (oldT newT : Nat)
    (sd : Date) (rows : List EmiRow)
    (hU : ((rows.filter (fun e => e.buyer_id == b)).map
        (fun e => e.emi_no)).Nodup)
    (hLe : ∀ e ∈ rows, e.buyer_id = b → e.emi_no ≤ oldT) :
    (((edit_buyer_emis b oldA newA oldT newT sd rows).filter
        (fun e => e.buyer_id == b)).map (fun e => e.emi_no)).Nodup := by
  have hmap : ((rows.map (reprice_row b newA)).filter
        (fun e => e.buyer_id == b)).map (fun e => e.emi_no)
      = (rows.filter (fun e => e.buyer_id == b)).map (fun e => e.emi_no) := by
    rw [List.filter_map, List.map_map]
    have h1 : ((fun e : EmiRow => e.buyer_id == b) ∘ reprice_row b newA)
        = (fun e : EmiRow => e.buyer_id == b) := by
      funext e
      simp only [Function.comp_apply, (reprice_row_fields b newA e).2.1]
    have h2 : ((fun e : EmiRow => e.emi_no) ∘ reprice_row b newA)
        = (fun e : EmiRow => e.emi_no) := by
      funext e
      simp only [Function.comp_apply, (reprice_row_fields b newA e).2.2.1]
    rw [h1, h2]
  have hLe1map : ∀ e ∈ rows.map (reprice_row b newA),
      e.buyer_id = b → e.emi_no ≤ oldT := by
    intro e he hb
    obtain ⟨e0, he0, rfl⟩ := List.mem_map.mp he
    obtain ⟨_, h2, h3, _, _, _⟩ := reprice_row_fields b newA e0
    rw [h3]
    exact hLe e0 he0 (by rw [← h2]; exact hb)
  obtain ⟨rows1, hrows1, hU1, hLe1⟩ :
      ∃ rows1, (edit_buyer_emis b oldA newA oldT newT sd rows
          = if oldT < newT then
              (List.range' (oldT + 1) (newT - oldT)).foldl
                (append_emi b sd newA) rows1
            else if newT < oldT then
              rows1.filter (fun emi =>
                !(emi.buyer_id == b && newT < emi.emi_no &&
                  emi.status != "Paid"))
            else rows1) ∧
        ((rows1.filter (fun e => e.buyer_id == b)).map (fun e => e.emi_no)
            = (rows.filter (fun e => e.buyer_id == b)).map
                (fun e => e.emi_no)) ∧
        (∀ e ∈ rows1, e.buyer_id = b → e.emi_no ≤ oldT) := by
    by_cases hA : (newA != oldA) = true
    · exact ⟨rows.map (reprice_row b newA),
        by simp only [edit_buyer_emis, if_pos hA], hmap, hLe1map⟩
    · exact ⟨rows, by simp only [edit_buyer_emis, if_neg hA], rfl, hLe⟩
  rcases Nat.lt_trichotomy oldT newT with hT | hT | hT
  · rw [hrows1, if_pos hT,
      foldl_append_emi b sd newA (newT - oldT) (oldT + 1) rows1,
      List.filter_append, List.map_append]
    have hgen : (gen_rows b sd newA (max_id rows1) (oldT + 1)
          (newT - oldT)).filter (fun e => e.buyer_id == b)
        = gen_rows b sd newA (max_id rows1) (oldT + 1) (newT - oldT) :=
      List.filter_eq_self.mpr (fun e he => by
        simp [(gen_rows_mem b sd newA _ _ _ e he).1])
    refine List.Nodup.append ?_ ?_ ?_
    · rw [hU1]
      exact hU
    · rw [hgen, gen_rows_map_emi_no]
      exact List.nodup_range' _ _
    · intro a ha hb2
      rw [hU1] at ha
      obtain ⟨e, he, rfl⟩ := List.mem_map.mp ha
      have heb : e.buyer_id = b := by
        have h := (List.mem_filter.mp he).2
        simpa using h
      have h1 : e.emi_no ≤ oldT := hLe e (List.mem_filter.mp he).1 heb
      rw [hgen, gen_rows_map_emi_no] at hb2
      obtain ⟨i, hi, hie⟩ := List.mem_range'.mp hb2
      omega
  · rw [hrows1]
    subst hT
    rw [if_neg (lt_irrefl oldT), if_neg (lt_irrefl oldT), hU1]
    exact hU
  · have hg : ¬ oldT < newT := by omega
    rw [hrows1, if_neg hg, if_pos hT]
    have hsub : ((((rows1.filter (fun emi =>
          !(emi.buyer_id == b && newT < emi.emi_no &&
            emi.status != "Paid"))).filter
        (fun e => e.buyer_id == b)).map (fun e => e.emi_no)).Sublist
        ((rows1.filter (fun e => e.buyer_id == b)).map
          (fun e => e.emi_no))) :=
      List.Sublist.map _ (List.Sublist.filter _ (List.filter_sublist rows1))
    exact List.Nodup.sublist hsub (by rw [hU1]; exact hU)

/-- Witness for the amended C9: the shrink of the counterexample scenario
itself (tenure 5 to 3 on a 1..5 schedule with installment 5 paid) does
preserve per-buyer sequence-number uniqueness, since its rows all lie
within the old tenure. -/
theorem edit_buyer_emis_nodup_witness :
    (((edit_buyer_emis 1 1000 1000 5 3 ⟨2024, 1, 15⟩ rowsPaidTail).filter
        (fun e => e.buyer_id == 1)).map (fun e => e.emi_no)).Nodup :=
  edit_buyer_emis_nodup 1 1000 1000 5 3 ⟨2024, 1, 15⟩ rowsPaidTail
    (by decide) (by decide)
